/-
  Verification of the pricing and volatility core of the
  Options-Pricing-Model repository (Python), as a shallow embedding in
  Lean 4 over real arithmetic.

  Python floats are modelled as real numbers; numpy arrays as lists;
  a raised exception as the `Except.error` branch of an `Except` value;
  numpy NaN cells in result grids as `Option.none`.

  Sources embedded:
  - src/models/base_model.py   (OptionParams, validation, d1/d2,
                                implied_volatility, finite differences)
  - src/models/black_scholes.py (BlackScholesModel.price, greeks)
  - src/models/binomial_tree.py (BinomialTreeModel.price,
                                get_early_exercise_boundary)
  - src/utils/volatility.py    (VolatilityCalculator.calculate_returns,
                                ewma_volatility, ImpliedVolatilitySurface)
-/
import Mathlib

open MeasureTheory Set

noncomputable section

/-- Errors raised by the Python core; each constructor corresponds to one
`raise ValueError(...)` site (or, for `indexError`, an out-of-range numpy
access). -/
inductive ModelError where
  | invalidParameter (msg : String) : ModelError
  | degenerateVega : ModelError
  | noConvergence : ModelError
  | invalidOperation : ModelError
  | insufficientData : ModelError
  | indexError : ModelError
  deriving DecidableEq, Repr

/-- Embedding of the `OptionParams` dataclass of src/models/base_model.py. -/
structure OptionParams where
  S : ℝ
  K : ℝ
  T : ℝ
  r : ℝ
  sigma : ℝ
  div_yield : ℝ
  is_call : Bool

/-- Density of the standard normal distribution (scipy `norm.pdf`). -/
def normPdf (x : ℝ) : ℝ :=
  Real.exp (-(1 / 2) * x ^ 2) / Real.sqrt (2 * Real.pi)

/-- Cumulative distribution function of the standard normal distribution
(scipy `norm.cdf`). -/
def normCdf (x : ℝ) : ℝ :=
  (∫ t in Iic x, Real.exp (-(1 / 2) * t ^ 2)) / Real.sqrt (2 * Real.pi)

/-- Embedding of `BaseOptionModel._validate_params` (src/models/base_model.py):
the first violated constraint raises `ValueError`; otherwise the call returns
normally. -/
def validateParams (p : OptionParams) : Except ModelError Unit :=
  if p.S ≤ 0 then .error (.invalidParameter "Stock price must be positive")
  else if p.K ≤ 0 then .error (.invalidParameter "Strike price must be positive")
  else if p.T ≤ 0 then .error (.invalidParameter "Time to maturity must be positive")
  else if p.sigma ≤ 0 then .error (.invalidParameter "Volatility must be positive")
  else if p.r < 0 then .error (.invalidParameter "Risk-free rate cannot be negative")
  else if p.div_yield < 0 then .error (.invalidParameter "Dividend yield cannot be negative")
  else .ok ()

/-- Domain constraints enforced by `_validate_params`. -/
def ValidParams (p : OptionParams) : Prop :=
  0 < p.S ∧ 0 < p.K ∧ 0 < p.T ∧ 0 < p.sigma ∧ 0 ≤ p.r ∧ 0 ≤ p.div_yield

/-- Embedding of `BaseOptionModel._calculate_d1_d2`, first component. -/
def d1 (p : OptionParams) : ℝ :=
  (Real.log (p.S / p.K) + (p.r - p.div_yield + 0.5 * p.sigma ^ 2) * p.T) /
    (p.sigma * Real.sqrt p.T)

/-- Embedding of `BaseOptionModel._calculate_d1_d2`, second component. -/
def d2 (p : OptionParams) : ℝ :=
  d1 p - p.sigma * Real.sqrt p.T

/-- Formula branch of `BlackScholesModel.price` (src/models/black_scholes.py),
evaluated after `_validate_params` has passed. -/
def bsPriceFormula (p : OptionParams) : ℝ :=
  if p.is_call then
    p.S * Real.exp (-p.div_yield * p.T) * normCdf (d1 p) -
      p.K * Real.exp (-p.r * p.T) * normCdf (d2 p)
  else
    p.K * Real.exp (-p.r * p.T) * normCdf (-d2 p) -
      p.S * Real.exp (-p.div_yield * p.T) * normCdf (-d1 p)

/-- Embedding of `BlackScholesModel.price`: validate, then apply the closed
form. -/
def BlackScholesModel.price (p : OptionParams) : Except ModelError ℝ :=
  match validateParams p with
  | .error e => .error e
  | .ok _ => .ok (bsPriceFormula p)

/-- Vega entry of `BlackScholesModel.greeks`:
`vega = S * exp_qt * sqrt_T * norm.pdf(d1)`. -/
def bsVega (p : OptionParams) : ℝ :=
  p.S * Real.exp (-p.div_yield * p.T) * Real.sqrt p.T * normPdf (d1 p)

/-- Embedding of the loop body of `BaseOptionModel.implied_volatility`
(src/models/base_model.py).  The Python `for i in range(max_iter)` loop is
modelled with the fuel argument `n`; `price` and `vega` stand for
`self.price` and `self.greeks(...)['vega']` of the concrete model.  The
in-place assignment `params.sigma = sigma` is modelled by threading the
parameter record through the loop; the function returns the result together
with the final record. -/
def impliedVolLoop (price vega : OptionParams → ℝ) (marketPrice tolerance : ℝ) :
    ℕ → ℝ → OptionParams → Except ModelError ℝ × OptionParams
  | 0, _, ps => (.error .noConvergence, ps)
  | n + 1, sigma, ps =>
    if |price { ps with sigma := sigma } - marketPrice| < tolerance then
      (.ok sigma, { ps with sigma := sigma })
    else if |vega { ps with sigma := sigma }| < 1e-10 then
      (.error .degenerateVega, { ps with sigma := sigma })
    else
      impliedVolLoop price vega marketPrice tolerance n
        (if sigma - (price { ps with sigma := sigma } - marketPrice) /
              vega { ps with sigma := sigma } ≤ 0 then 0.0001
         else sigma - (price { ps with sigma := sigma } - marketPrice) /
              vega { ps with sigma := sigma })
        { ps with sigma := sigma }

/-- Embedding of `BaseOptionModel.implied_volatility`: Newton-Raphson from
the fixed seed `sigma = 0.5`. -/
def implied_volatility (price vega : OptionParams → ℝ) (marketPrice : ℝ)
    (ps : OptionParams) (tolerance : ℝ) (maxIter : ℕ) :
    Except ModelError ℝ × OptionParams :=
  impliedVolLoop price vega marketPrice tolerance maxIter 0.5 ps

/-- Newton-Raphson recurrence exactly as the specification words it
(spec §4.1), over a price and a vega viewed as functions of the current
sigma alone.  Comparison definition for the refinement statement of the
implied-volatility claim. -/
def specNewtonIV (price vega : ℝ → ℝ) (marketPrice tolerance : ℝ) :
    ℕ → ℝ → Except ModelError ℝ
  | 0, _ => .error .noConvergence
  | n + 1, sigma =>
    if |price sigma - marketPrice| < tolerance then .ok sigma
    else if |vega sigma| < 1e-10 then .error .degenerateVega
    else
      specNewtonIV price vega marketPrice tolerance n
        (if sigma - (price sigma - marketPrice) / vega sigma ≤ 0 then 0.0001
         else sigma - (price sigma - marketPrice) / vega sigma)

/-- One clamped Newton-Raphson update, as performed by both the base-model
loop and the specification recurrence. -/
def nrStep (f g : ℝ → ℝ) (mp : ℝ) (sigma : ℝ) : ℝ :=
  if sigma - (f sigma - mp) / g sigma ≤ 0 then 0.0001
  else sigma - (f sigma - mp) / g sigma

/-- State of `BinomialTreeModel.__init__` (src/models/binomial_tree.py). -/
structure BinomialTreeModel where
  steps : ℕ
  american : Bool

/-- Time increment `dt = params.T / self.steps` of `_build_tree`. -/
def bDt (p : OptionParams) (steps : ℕ) : ℝ := p.T / steps

/-- Up factor `u = exp(sigma * sqrt(dt))` of `_build_tree`. -/
def bU (p : OptionParams) (steps : ℕ) : ℝ :=
  Real.exp (p.sigma * Real.sqrt (bDt p steps))

/-- Down factor `d = 1 / u` of `_build_tree`. -/
def bD (p : OptionParams) (steps : ℕ) : ℝ := 1 / bU p steps

/-- Risk-neutral up probability `p = (exp((r - q) dt) - d) / (u - d)` of
`_build_tree`. -/
def bP (p : OptionParams) (steps : ℕ) : ℝ :=
  (Real.exp ((p.r - p.div_yield) * bDt p steps) - bD p steps) /
    (bU p steps - bD p steps)

/-- Per-step discount factor `df = exp(-r dt)` of `BinomialTreeModel.price`. -/
def bDf (p : OptionParams) (steps : ℕ) : ℝ := Real.exp (-p.r * bDt p steps)

/-- Stock price at node `n` (number of down moves) and time step `t`:
`stock_tree[n, t] = S * u^(t-n) * d^n` as built by `_build_tree`. -/
def stockAt (p : OptionParams) (steps n t : ℕ) : ℝ :=
  p.S * bU p steps ^ (t - n) * bD p steps ^ n

/-- Terminal payoff applied at maturity in `BinomialTreeModel.price`. -/
def payoff (p : OptionParams) (s : ℝ) : ℝ :=
  if p.is_call then max 0 (s - p.K) else max 0 (p.K - s)

/-- Early exercise value `stock - K` (call) or `K - stock` (put), not floored
at zero, as computed inside the backward induction and inside
`get_early_exercise_boundary`. -/
def intrinsic (p : OptionParams) (s : ℝ) : ℝ :=
  if p.is_call then s - p.K else p.K - s

/-- Backward induction of `BinomialTreeModel.price`: `optVal p steps amer k n`
is the option value at node `n` of time step `steps - k` (so `k` counts the
remaining induction steps and `k = 0` is maturity). -/
def optVal (p : OptionParams) (steps : ℕ) (amer : Bool) : ℕ → ℕ → ℝ
  | 0, n => payoff p (stockAt p steps n steps)
  | k + 1, n =>
    if amer then
      max (bDf p steps * (bP p steps * optVal p steps amer k n +
          (1 - bP p steps) * optVal p steps amer k (n + 1)))
        (intrinsic p (stockAt p steps n (steps - (k + 1))))
    else
      bDf p steps * (bP p steps * optVal p steps amer k n +
        (1 - bP p steps) * optVal p steps amer k (n + 1))

/-- Embedding of `BinomialTreeModel.price`: validate, then run the backward
induction and return the root value `option_tree[0, 0]`. -/
def BinomialTreeModel.price (m : BinomialTreeModel) (p : OptionParams) :
    Except ModelError ℝ :=
  match validateParams p with
  | .error e => .error e
  | .ok _ => .ok (optVal p m.steps m.american m.steps 0)

/-- Entry of the option-value grid as `get_early_exercise_boundary` actually
reads it: the Python method allocates `option_tree = np.zeros_like(stock_tree)`
and fills ONLY the terminal column with the payoff; no backward induction is
performed before the node scan, so every non-terminal entry is the zero left
by `np.zeros_like`. -/
def optionTreeScan (p : OptionParams) (steps n t : ℕ) : ℝ :=
  if t = steps then payoff p (stockAt p steps n steps) else 0

/-- One step of the boundary scan of `get_early_exercise_boundary`: collect
the stock prices of the nodes `n = 0..t` where the scanned option value is
within `1e-10` of the intrinsic value, and record their minimum (call) or
maximum (put), or `none` (numpy NaN) when there is no such node. -/
def boundaryStep (p : OptionParams) (steps t : ℕ) : Option ℝ :=
  match (List.range (t + 1)).filterMap (fun n =>
    if |optionTreeScan p steps n t - intrinsic p (stockAt p steps n t)| < 1e-10
    then some (stockAt p steps n t) else none) with
  | [] => none
  | x :: xs => some (if p.is_call then xs.foldl min x else xs.foldl max x)

/-- Embedding of `BinomialTreeModel.get_early_exercise_boundary`: raise for a
non-American model, else scan every time step. -/
def get_early_exercise_boundary (m : BinomialTreeModel) (p : OptionParams) :
    Except ModelError (List (Option ℝ)) :=
  if m.american = false then .error .invalidOperation
  else .ok ((List.range (m.steps + 1)).map (fun t => boundaryStep p m.steps t))

/-- Embedding of the `VolatilityParams` dataclass of src/utils/volatility.py
(the optional parallel `prices` array is unused by the embedded
operations). -/
structure VolatilityParams where
  returns : List ℝ
  window : ℕ
  decay : ℝ

/-- Embedding of `VolatilityCalculator.calculate_returns`:
`np.log(prices[1:] / prices[:-1])` for log returns and
`prices[1:] / prices[:-1] - 1` for simple returns.  Entry `t` of the result
pairs `prices[t+1]` with `prices[t]`; the result has one entry fewer than
the input. -/
def calculate_returns (prices : List ℝ) (log_returns : Bool) : List ℝ :=
  if log_returns then
    List.zipWith (fun a b => Real.log (a / b)) prices.tail prices
  else
    List.zipWith (fun a b => a / b - 1) prices.tail prices

/-- EWMA variance recursion of `VolatilityCalculator.ewma_volatility`:
`variance[0] = returns[0]²`,
`variance[t] = decay·variance[t−1] + (1−decay)·returns[t−1]²`. -/
def ewmaVar (returns : List ℝ) (decay : ℝ) : ℕ → ℝ
  | 0 => returns.getD 0 0 ^ 2
  | t + 1 => decay * ewmaVar returns decay t + (1 - decay) * returns.getD t 0 ^ 2

/-- Embedding of `VolatilityCalculator.ewma_volatility`: raise
InsufficientData when `len(returns) < window`; on an empty array the seed
assignment `variance[0] = returns[0] ** 2` raises IndexError; otherwise
return the per-entry annualized volatility `sqrt(variance) * sqrt(252)`. -/
def ewma_volatility (vp : VolatilityParams) : Except ModelError (List ℝ) :=
  if vp.returns.length < vp.window then .error .insufficientData
  else if vp.returns.isEmpty then .error .indexError
  else .ok ((List.range vp.returns.length).map (fun t =>
    Real.sqrt (ewmaVar vp.returns vp.decay t) * Real.sqrt 252))

/-- The `d1` computed inside `ImpliedVolatilitySurface._newton_raphson_iv`
(src/utils/volatility.py): no dividend yield term. -/
def surfD1 (spot K T r sigma : ℝ) : ℝ :=
  (Real.log (spot / K) + (r + 0.5 * sigma ^ 2) * T) / (sigma * Real.sqrt T)

/-- The Black-Scholes price recomputed inside `_newton_raphson_iv` at the
current sigma (q = 0 variant). -/
def surfPrice (spot K T r : ℝ) (is_call : Bool) (sigma : ℝ) : ℝ :=
  if is_call then
    spot * normCdf (surfD1 spot K T r sigma) -
      K * Real.exp (-r * T) *
        normCdf (surfD1 spot K T r sigma - sigma * Real.sqrt T)
  else
    K * Real.exp (-r * T) *
        normCdf (-(surfD1 spot K T r sigma - sigma * Real.sqrt T)) -
      spot * normCdf (-surfD1 spot K T r sigma)

/-- The vega `spot * sqrt(T) * norm.pdf(d1)` used by `_newton_raphson_iv`. -/
def surfVega (spot K T r sigma : ℝ) : ℝ :=
  spot * Real.sqrt T * normPdf (surfD1 spot K T r sigma)

/-- Loop body of `_newton_raphson_iv`: converge on `|diff| < tolerance`,
otherwise update `sigma ← sigma − diff/vega` — with NO vega-degeneracy guard
and NO clamping of non-positive sigma — and raise after `max_iter`
iterations. -/
def newtonRaphsonIVLoop (spot mp K T r : ℝ) (is_call : Bool) (tol : ℝ) :
    ℕ → ℝ → Except ModelError ℝ
  | 0, _ => .error .noConvergence
  | n + 1, sigma =>
    if |surfPrice spot K T r is_call sigma - mp| < tol then .ok sigma
    else
      newtonRaphsonIVLoop spot mp K T r is_call tol n
        (sigma - (surfPrice spot K T r is_call sigma - mp) /
          surfVega spot K T r sigma)

/-- Embedding of `ImpliedVolatilitySurface._newton_raphson_iv`: seed 0.5. -/
def newton_raphson_iv (spot mp K T r : ℝ) (is_call : Bool) (maxIter : ℕ)
    (tol : ℝ) : Except ModelError ℝ :=
  newtonRaphsonIVLoop spot mp K T r is_call tol maxIter 0.5

/-- Guard-freeness of a Newton-Raphson run: along the whole iteration from
the given seed, whenever the convergence test fails the vega stays at least
`1e-10` in magnitude and the unclamped update stays positive.  Under this
condition the base method's extra branches never fire. -/
def GuardFree (f g : ℝ → ℝ) (mp tol : ℝ) : ℕ → ℝ → Prop
  | 0, _ => True
  | n + 1, sigma =>
    ¬ |f sigma - mp| < tol →
      (¬ |g sigma| < 1e-10 ∧ ¬ (sigma - (f sigma - mp) / g sigma ≤ 0) ∧
        GuardFree f g mp tol n (sigma - (f sigma - mp) / g sigma))

/-- Result of one guarded cell inversion in `calculate_surface`: the bare
`except:` of the Python loop records NaN (`none`) for any raised error and
stores the returned sigma otherwise. -/
def exceptToOption : Except ModelError ℝ → Option ℝ
  | .ok v => some v
  | .error _ => none

/-- Embedding of `ImpliedVolatilitySurface.calculate_surface`: every
(strike, maturity) cell is inverted independently with the stored spot, the
cell's market price and the maturity's rate, with the Python defaults
`is_call=True`, `max_iter=100`, `tolerance=1e-5`. -/
def calculate_surface (spot : ℝ) (strikes maturities rates : List ℝ)
    (marketPrices : List (List ℝ)) : List (List (Option ℝ)) :=
  (List.range strikes.length).map (fun i =>
    (List.range maturities.length).map (fun j =>
      exceptToOption (newton_raphson_iv spot
        ((marketPrices.getD i []).getD j 0) (strikes.getD i 0)
        (maturities.getD j 0) (rates.getD j 0) true 100 (1e-5))))

lemma gauss_integrable : Integrable (fun t : ℝ => Real.exp (-(1 / 2) * t ^ 2)) :=
  integrable_exp_neg_mul_sq (by norm_num)

lemma gauss_total :
    (∫ t : ℝ, Real.exp (-(1 / 2) * t ^ 2)) = Real.sqrt (2 * Real.pi) := by
  rw [integral_gaussian]
  congr 1
  rw [div_div_eq_mul_div, div_one, mul_comm]

lemma sqrt_two_pi_pos : 0 < Real.sqrt (2 * Real.pi) :=
  Real.sqrt_pos.mpr (by positivity)

lemma one_le_sqrt_two_pi : 1 ≤ Real.sqrt (2 * Real.pi) := by
  have h1 : (1 : ℝ) = Real.sqrt 1 := (Real.sqrt_one).symm
  rw [h1]
  apply Real.sqrt_le_sqrt
  nlinarith [Real.pi_gt_three]

/-- Symmetry of the standard normal distribution: the CDF at `x` and at
`-x` sum to one. -/
lemma normCdf_add_normCdf_neg (x : ℝ) : normCdf x + normCdf (-x) = 1 := by
  unfold normCdf
  rw [div_add_div_same, div_eq_one_iff_eq (ne_of_gt sqrt_two_pi_pos)]
  have hB : (∫ t in Iic (-x), Real.exp (-(1 / 2) * t ^ 2)) =
      ∫ t in Ioi x, Real.exp (-(1 / 2) * t ^ 2) := by
    have key := integral_comp_neg_Iic (-x) (fun s => Real.exp (-(1 / 2) * s ^ 2))
    simp only [neg_sq, neg_neg] at key
    exact key
  rw [hB, intervalIntegral.integral_Iic_add_Ioi gauss_integrable.integrableOn
    gauss_integrable.integrableOn, gauss_total]

lemma normCdf_nonneg (x : ℝ) : 0 ≤ normCdf x :=
  div_nonneg
    (setIntegral_nonneg measurableSet_Iic fun _ _ => (Real.exp_pos _).le)
    (Real.sqrt_nonneg _)

lemma normCdf_le_one (x : ℝ) : normCdf x ≤ 1 := by
  unfold normCdf
  rw [div_le_one sqrt_two_pi_pos, ← gauss_total]
  exact setIntegral_le_integral gauss_integrable
    (Filter.Eventually.of_forall fun t => (Real.exp_pos _).le)

lemma normPdf_nonneg (x : ℝ) : 0 ≤ normPdf x :=
  div_nonneg (Real.exp_pos _).le (Real.sqrt_nonneg _)

/-- Bound used to exhibit a degenerate vega: the normal density at any
point of magnitude at least 7 is below `1e-10`. -/
lemma normPdf_lt_of_le (x : ℝ) (h : x ≤ -7) : normPdf x < 1e-10 := by
  unfold normPdf
  have hx2 : (49 : ℝ) ≤ x ^ 2 := by nlinarith
  have hexp : Real.exp (-(1 / 2) * x ^ 2) ≤ Real.exp (-24) := by
    apply Real.exp_le_exp.mpr
    nlinarith
  have h24 : Real.exp (-24) < 1e-10 := by
    have h1 : (2.7182818283 : ℝ) ^ (24 : ℕ) < Real.exp 1 ^ (24 : ℕ) := by
      apply pow_lt_pow_left Real.exp_one_gt_d9 (by norm_num)
      norm_num
    rw [← Real.exp_nat_mul] at h1
    have h2 : (1e10 : ℝ) < (2.7182818283 : ℝ) ^ (24 : ℕ) := by norm_num
    have h3 : (1e10 : ℝ) < Real.exp 24 := by
      calc (1e10 : ℝ) < (2.7182818283 : ℝ) ^ (24 : ℕ) := h2
        _ < Real.exp ((24 : ℕ) * 1) := h1
        _ = Real.exp 24 := by norm_num
    have hinv : Real.exp (-24) * Real.exp 24 = 1 := by
      rw [← Real.exp_add]
      norm_num
    have h5 := mul_lt_mul_of_pos_left h3 (Real.exp_pos (-24 : ℝ))
    rw [hinv] at h5
    linarith
  calc Real.exp (-(1 / 2) * x ^ 2) / Real.sqrt (2 * Real.pi)
      ≤ Real.exp (-(1 / 2) * x ^ 2) / 1 := by
        apply div_le_div_of_nonneg_left (Real.exp_pos _).le
        · norm_num
        · exact one_le_sqrt_two_pi
    _ = Real.exp (-(1 / 2) * x ^ 2) := by norm_num
    _ ≤ Real.exp (-24) := hexp
    _ < 1e-10 := h24

lemma validateParams_ok {p : OptionParams} (h : ValidParams p) :
    validateParams p = .ok () := by
  obtain ⟨h1, h2, h3, h4, h5, h6⟩ := h
  simp [validateParams, not_le.mpr h1, not_le.mpr h2, not_le.mpr h3,
    not_le.mpr h4, not_lt.mpr h5, not_lt.mpr h6]

lemma bsPrice_ok {p : OptionParams} (h : ValidParams p) :
    BlackScholesModel.price p = .ok (bsPriceFormula p) := by
  unfold BlackScholesModel.price
  rw [validateParams_ok h]

/-- C1: for every OptionParams with S>0, K>0, T>0, sigma>0, r≥0, div_yield≥0,
`BlackScholesModel.price` returns `S·e^(−qT)·Φ(d1) − K·e^(−rT)·Φ(d2)` when
`is_call` is true and `K·e^(−rT)·Φ(−d2) − S·e^(−qT)·Φ(−d1)` when it is false,
where `d1 = [ln(S/K) + (r−q+σ²/2)T]/(σ√T)` and `d2 = d1 − σ√T`, with Φ the
standard normal CDF. -/
theorem black_scholes_price_closed_form (p : OptionParams)
    (hS : 0 < p.S) (hK : 0 < p.K) (hT : 0 < p.T) (hsig : 0 < p.sigma)
    (hr : 0 ≤ p.r) (hq : 0 ≤ p.div_yield) :
    BlackScholesModel.price p = .ok (
      if p.is_call then
        p.S * Real.exp (-p.div_yield * p.T) *
            normCdf ((Real.log (p.S / p.K) +
              (p.r - p.div_yield + p.sigma ^ 2 / 2) * p.T) /
              (p.sigma * Real.sqrt p.T)) -
          p.K * Real.exp (-p.r * p.T) *
            normCdf ((Real.log (p.S / p.K) +
              (p.r - p.div_yield + p.sigma ^ 2 / 2) * p.T) /
              (p.sigma * Real.sqrt p.T) - p.sigma * Real.sqrt p.T)
      else
        p.K * Real.exp (-p.r * p.T) *
            normCdf (-((Real.log (p.S / p.K) +
              (p.r - p.div_yield + p.sigma ^ 2 / 2) * p.T) /
              (p.sigma * Real.sqrt p.T) - p.sigma * Real.sqrt p.T)) -
          p.S * Real.exp (-p.div_yield * p.T) *
            normCdf (-((Real.log (p.S / p.K) +
              (p.r - p.div_yield + p.sigma ^ 2 / 2) * p.T) /
              (p.sigma * Real.sqrt p.T)))) := by
  rw [bsPrice_ok ⟨hS, hK, hT, hsig, hr, hq⟩]
  have hd1 : d1 p = (Real.log (p.S / p.K) +
      (p.r - p.div_yield + p.sigma ^ 2 / 2) * p.T) /
      (p.sigma * Real.sqrt p.T) := by
    unfold d1
    ring
  simp only [bsPriceFormula, d2, hd1]

/-- Witness for `black_scholes_price_closed_form` at S=1, K=1, T=1, r=0,
sigma=1, div_yield=0, call. -/
theorem black_scholes_price_closed_form_witness :
    ((0:ℝ) < 1 ∧ (0:ℝ) ≤ 0) ∧
    BlackScholesModel.price ⟨1, 1, 1, 0, 1, 0, true⟩ = .ok (
      (1:ℝ) * Real.exp (-0 * 1) *
          normCdf ((Real.log (1 / 1) + (0 - 0 + 1 ^ 2 / 2) * 1) /
            (1 * Real.sqrt 1)) -
        (1:ℝ) * Real.exp (-0 * 1) *
          normCdf ((Real.log (1 / 1) + (0 - 0 + 1 ^ 2 / 2) * 1) /
            (1 * Real.sqrt 1) - 1 * Real.sqrt 1)) :=
  ⟨⟨by norm_num, le_refl 0⟩,
    black_scholes_price_closed_form ⟨1, 1, 1, 0, 1, 0, true⟩
      (by norm_num) (by norm_num) (by norm_num) (by norm_num)
      (by norm_num) (by norm_num)⟩

/-- C4: for every valid OptionParams, the Black-Scholes call price minus the
put price with identical parameters equals `S·e^(−qT) − K·e^(−rT)`
(put-call parity, exact over real arithmetic). -/
theorem black_scholes_put_call_parity (p : OptionParams)
    (hS : 0 < p.S) (hK : 0 < p.K) (hT : 0 < p.T) (hsig : 0 < p.sigma)
    (hr : 0 ≤ p.r) (hq : 0 ≤ p.div_yield) :
    ∃ c q, BlackScholesModel.price { p with is_call := true } = .ok c ∧
      BlackScholesModel.price { p with is_call := false } = .ok q ∧
      c - q = p.S * Real.exp (-p.div_yield * p.T) -
        p.K * Real.exp (-p.r * p.T) := by
  have h1 : BlackScholesModel.price { p with is_call := true } =
      .ok (bsPriceFormula { p with is_call := true }) :=
    bsPrice_ok ⟨hS, hK, hT, hsig, hr, hq⟩
  have h2 : BlackScholesModel.price { p with is_call := false } =
      .ok (bsPriceFormula { p with is_call := false }) :=
    bsPrice_ok ⟨hS, hK, hT, hsig, hr, hq⟩
  refine ⟨_, _, h1, h2, ?_⟩
  have hcall : bsPriceFormula { p with is_call := true } =
      p.S * Real.exp (-p.div_yield * p.T) * normCdf (d1 p) -
        p.K * Real.exp (-p.r * p.T) * normCdf (d2 p) := by
    simp only [bsPriceFormula, if_true]
    rfl
  have hput : bsPriceFormula { p with is_call := false } =
      p.K * Real.exp (-p.r * p.T) * normCdf (-d2 p) -
        p.S * Real.exp (-p.div_yield * p.T) * normCdf (-d1 p) := by
    simp only [bsPriceFormula, Bool.false_eq_true, if_false]
    rfl
  rw [hcall, hput]
  have hc1 := normCdf_add_normCdf_neg (d1 p)
  have hc2 := normCdf_add_normCdf_neg (d2 p)
  linear_combination (p.S * Real.exp (-p.div_yield * p.T)) * hc1 -
    (p.K * Real.exp (-p.r * p.T)) * hc2

/-- Witness for `black_scholes_put_call_parity` at S=2, K=1, T=1, r=0,
sigma=1, div_yield=0. -/
theorem black_scholes_put_call_parity_witness :
    ∃ c q, BlackScholesModel.price ⟨2, 1, 1, 0, 1, 0, true⟩ = .ok c ∧
      BlackScholesModel.price ⟨2, 1, 1, 0, 1, 0, false⟩ = .ok q ∧
      c - q = (2:ℝ) * Real.exp (-0 * 1) - 1 * Real.exp (-0 * 1) :=
  black_scholes_put_call_parity ⟨2, 1, 1, 0, 1, 0, true⟩
    (by norm_num) (by norm_num) (by norm_num) (by norm_num)
    (by norm_num) (by norm_num)

lemma impliedVolLoop_fst (price vega : OptionParams → ℝ) (mp tol : ℝ) :
    ∀ (n : ℕ) (sigma : ℝ) (ps : OptionParams),
      (impliedVolLoop price vega mp tol n sigma ps).1 =
        specNewtonIV (fun s => price { ps with sigma := s })
          (fun s => vega { ps with sigma := s }) mp tol n sigma := by
  intro n
  induction n with
  | zero => intro sigma ps; rfl
  | succ n ih =>
    intro sigma ps
    simp only [impliedVolLoop, specNewtonIV]
    by_cases h1 : |price { ps with sigma := sigma } - mp| < tol
    · simp [h1]
    · by_cases h2 : |vega { ps with sigma := sigma }| < 1e-10
      · simp [h1, h2]
      · simp only [if_neg h1, if_neg h2]
        exact ih _ _

/-- C2: for every pricing model (given by its price and vega functions),
every market price, parameter record, tolerance and iteration budget,
`implied_volatility` computes exactly the Newton-Raphson recurrence of the
specification: seed 0.5, stop when `|price − market| < tolerance`, fail with
DegenerateVega when `|vega| < 1e-10`, update `sigma ← sigma − diff/vega`
with non-positive results clamped to 0.0001, and fail with NoConvergence
after `max_iter` iterations. -/
theorem implied_volatility_newton_spec (price vega : OptionParams → ℝ)
    (mp tol : ℝ) (ps : OptionParams) (maxIter : ℕ) :
    (implied_volatility price vega mp ps tol maxIter).1 =
      specNewtonIV (fun s => price { ps with sigma := s })
        (fun s => vega { ps with sigma := s }) mp tol maxIter 0.5 :=
  impliedVolLoop_fst price vega mp tol maxIter 0.5 ps

lemma impliedVolLoop_frame (price vega : OptionParams → ℝ) (mp tol : ℝ) :
    ∀ (n : ℕ) (sigma : ℝ) (ps : OptionParams),
      (impliedVolLoop price vega mp tol n sigma ps).2 = ps ∨
        ∃ s, (impliedVolLoop price vega mp tol n sigma ps).2 =
          { ps with sigma := s } := by
  intro n
  induction n with
  | zero => intro sigma ps; exact Or.inl rfl
  | succ n ih =>
    intro sigma ps
    simp only [impliedVolLoop]
    by_cases h1 : |price { ps with sigma := sigma } - mp| < tol
    · simp only [if_pos h1]
      exact Or.inr ⟨sigma, rfl⟩
    · by_cases h2 : |vega { ps with sigma := sigma }| < 1e-10
      · simp only [if_neg h1, if_pos h2]
        exact Or.inr ⟨sigma, rfl⟩
      · simp only [if_neg h1, if_neg h2]
        rcases ih (if sigma - (price { ps with sigma := sigma } - mp) /
              vega { ps with sigma := sigma } ≤ 0 then 0.0001
            else sigma - (price { ps with sigma := sigma } - mp) /
              vega { ps with sigma := sigma }) { ps with sigma := sigma } with
          h | ⟨s, h⟩
        · exact Or.inr ⟨sigma, h⟩
        · exact Or.inr ⟨s, h⟩

lemma impliedVolLoop_ok_sigma (price vega : OptionParams → ℝ) (mp tol : ℝ) :
    ∀ (n : ℕ) (sigma : ℝ) (ps : OptionParams) (v : ℝ),
      (impliedVolLoop price vega mp tol n sigma ps).1 = .ok v →
        (impliedVolLoop price vega mp tol n sigma ps).2.sigma = v := by
  intro n
  induction n with
  | zero => intro sigma ps v h; exact absurd h (by simp [impliedVolLoop])
  | succ n ih =>
    intro sigma ps v h
    simp only [impliedVolLoop] at h ⊢
    by_cases h1 : |price { ps with sigma := sigma } - mp| < tol
    · simp only [if_pos h1] at h ⊢
      cases h
      rfl
    · by_cases h2 : |vega { ps with sigma := sigma }| < 1e-10
      · simp only [if_neg h1, if_pos h2] at h
        exact Except.noConfusion h
      · simp only [if_neg h1, if_neg h2] at h ⊢
        exact ih _ _ _ h

lemma impliedVolLoop_degenerate (price vega : OptionParams → ℝ) (mp tol : ℝ) :
    ∀ (n : ℕ) (sigma : ℝ) (ps : OptionParams),
      (impliedVolLoop price vega mp tol n sigma ps).1 = .error .degenerateVega →
        |vega (impliedVolLoop price vega mp tol n sigma ps).2| < 1e-10 ∧
        ¬ |price (impliedVolLoop price vega mp tol n sigma ps).2 - mp| < tol := by
  intro n
  induction n with
  | zero =>
    intro sigma ps h
    exact absurd h (by simp [impliedVolLoop])
  | succ n ih =>
    intro sigma ps h
    simp only [impliedVolLoop] at h ⊢
    by_cases h1 : |price { ps with sigma := sigma } - mp| < tol
    · simp only [if_pos h1] at h
      exact Except.noConfusion h
    · by_cases h2 : |vega { ps with sigma := sigma }| < 1e-10
      · simp only [if_neg h1, if_pos h2] at h ⊢
        exact ⟨h2, h1⟩
      · simp only [if_neg h1, if_neg h2] at h ⊢
        exact ih _ _ h

lemma impliedVolLoop_succ_eq (price vega : OptionParams → ℝ) (mp tol : ℝ)
    (n : ℕ) (sigma : ℝ) (ps : OptionParams) :
    impliedVolLoop price vega mp tol (n + 1) sigma ps =
      if |price { ps with sigma := sigma } - mp| < tol then
        (.ok sigma, { ps with sigma := sigma })
      else if |vega { ps with sigma := sigma }| < 1e-10 then
        (.error .degenerateVega, { ps with sigma := sigma })
      else
        impliedVolLoop price vega mp tol n
          (nrStep (fun s => price { ps with sigma := s })
            (fun s => vega { ps with sigma := s }) mp sigma)
          { ps with sigma := sigma } := rfl

lemma impliedVolLoop_noconv_sigma (price vega : OptionParams → ℝ) (mp tol : ℝ) :
    ∀ (n : ℕ) (sigma : ℝ) (ps : OptionParams),
      (impliedVolLoop price vega mp tol (n + 1) sigma ps).1 =
          .error .noConvergence →
        (impliedVolLoop price vega mp tol (n + 1) sigma ps).2.sigma =
          (nrStep (fun s => price { ps with sigma := s })
            (fun s => vega { ps with sigma := s }) mp)^[n] sigma := by
  intro n
  induction n with
  | zero =>
    intro sigma ps h
    rw [impliedVolLoop_succ_eq] at h ⊢
    by_cases h1 : |price { ps with sigma := sigma } - mp| < tol
    · rw [if_pos h1] at h
      exact Except.noConfusion h
    · by_cases h2 : |vega { ps with sigma := sigma }| < 1e-10
      · rw [if_neg h1, if_pos h2] at h
        exact absurd h (by simp)
      · rw [if_neg h1, if_neg h2]
        rfl
  | succ n ih =>
    intro sigma ps h
    rw [impliedVolLoop_succ_eq] at h ⊢
    by_cases h1 : |price { ps with sigma := sigma } - mp| < tol
    · rw [if_pos h1] at h
      exact Except.noConfusion h
    · by_cases h2 : |vega { ps with sigma := sigma }| < 1e-10
      · rw [if_neg h1, if_pos h2] at h
        exact absurd h (by simp)
      · rw [if_neg h1, if_neg h2] at h ⊢
        have hrec := ih (nrStep (fun s => price { ps with sigma := s })
            (fun s => vega { ps with sigma := s }) mp sigma)
          { ps with sigma := sigma } h
        rw [hrec, Function.iterate_succ_apply]

/-- C10: when `implied_volatility` returns successfully the caller's
parameter record has been mutated so that its `sigma` field equals the
returned implied volatility; the fields S, K, T, r, div_yield and is_call
are never changed; with a zero iteration budget the record is untouched; on
a DegenerateVega failure the recorded sigma is the one whose vega was below
`1e-10` (and which had not converged), and on a NoConvergence failure the
recorded sigma is the last iterate tried, namely the `(max_iter−1)`-fold
clamped Newton update of the seed 0.5. -/
theorem implied_volatility_mutation (price vega : OptionParams → ℝ)
    (mp tol : ℝ) (ps : OptionParams) (maxIter : ℕ) :
    ((implied_volatility price vega mp ps tol maxIter).2.S = ps.S ∧
      (implied_volatility price vega mp ps tol maxIter).2.K = ps.K ∧
      (implied_volatility price vega mp ps tol maxIter).2.T = ps.T ∧
      (implied_volatility price vega mp ps tol maxIter).2.r = ps.r ∧
      (implied_volatility price vega mp ps tol maxIter).2.div_yield =
        ps.div_yield ∧
      (implied_volatility price vega mp ps tol maxIter).2.is_call =
        ps.is_call) ∧
    (∀ v, (implied_volatility price vega mp ps tol maxIter).1 = .ok v →
      (implied_volatility price vega mp ps tol maxIter).2.sigma = v) ∧
    (maxIter = 0 → (implied_volatility price vega mp ps tol maxIter).2 = ps) ∧
    ((implied_volatility price vega mp ps tol maxIter).1 =
        .error .degenerateVega →
      |vega (implied_volatility price vega mp ps tol maxIter).2| < 1e-10 ∧
      ¬ |price (implied_volatility price vega mp ps tol maxIter).2 - mp|
        < tol) ∧
    (∀ n, maxIter = n + 1 →
      (implied_volatility price vega mp ps tol maxIter).1 =
        .error .noConvergence →
      (implied_volatility price vega mp ps tol maxIter).2.sigma =
        (nrStep (fun s => price { ps with sigma := s })
          (fun s => vega { ps with sigma := s }) mp)^[n] 0.5) := by
  refine ⟨?_, ?_, ?_, ?_, ?_⟩
  · rcases impliedVolLoop_frame price vega mp tol maxIter 0.5 ps with h | ⟨s, h⟩ <;>
      rw [implied_volatility, h] <;> exact ⟨rfl, rfl, rfl, rfl, rfl, rfl⟩
  · intro v h
    exact impliedVolLoop_ok_sigma price vega mp tol maxIter 0.5 ps v h
  · intro h
    subst h
    rfl
  · intro h
    exact impliedVolLoop_degenerate price vega mp tol maxIter 0.5 ps h
  · intro n hn h
    subst hn
    exact impliedVolLoop_noconv_sigma price vega mp tol n 0.5 ps h

/-- Witness for `implied_volatility_mutation`: a model whose price equals
the current sigma converges at once for market price 0.5, and the record
keeps every other field while its sigma is set to the result. -/
theorem implied_volatility_mutation_witness :
    ((implied_volatility (fun q => q.sigma) (fun _ => 1) 0.5
        ⟨1, 2, 3, 0, 9, 0, true⟩ 1 1).2.S = (1:ℝ) ∧
      (implied_volatility (fun q => q.sigma) (fun _ => 1) 0.5
        ⟨1, 2, 3, 0, 9, 0, true⟩ 1 1).2.K = (2:ℝ) ∧
      (implied_volatility (fun q => q.sigma) (fun _ => 1) 0.5
        ⟨1, 2, 3, 0, 9, 0, true⟩ 1 1).2.T = (3:ℝ) ∧
      (implied_volatility (fun q => q.sigma) (fun _ => 1) 0.5
        ⟨1, 2, 3, 0, 9, 0, true⟩ 1 1).2.r = (0:ℝ) ∧
      (implied_volatility (fun q => q.sigma) (fun _ => 1) 0.5
        ⟨1, 2, 3, 0, 9, 0, true⟩ 1 1).2.div_yield = (0:ℝ) ∧
      (implied_volatility (fun q => q.sigma) (fun _ => 1) 0.5
        ⟨1, 2, 3, 0, 9, 0, true⟩ 1 1).2.is_call = true) ∧
    (∀ v, (implied_volatility (fun q => q.sigma) (fun _ => 1) 0.5
        ⟨1, 2, 3, 0, 9, 0, true⟩ 1 1).1 = .ok v →
      (implied_volatility (fun q => q.sigma) (fun _ => 1) 0.5
        ⟨1, 2, 3, 0, 9, 0, true⟩ 1 1).2.sigma = v) ∧
    ((1:ℕ) = 0 → (implied_volatility (fun q => q.sigma) (fun _ => 1) 0.5
        ⟨1, 2, 3, 0, 9, 0, true⟩ 1 1).2 = ⟨1, 2, 3, 0, 9, 0, true⟩) ∧
    ((implied_volatility (fun q => q.sigma) (fun _ => 1) 0.5
        ⟨1, 2, 3, 0, 9, 0, true⟩ 1 1).1 = .error .degenerateVega →
      |(fun (_ : OptionParams) => (1:ℝ)) (implied_volatility
          (fun q => q.sigma) (fun _ => 1) 0.5
          ⟨1, 2, 3, 0, 9, 0, true⟩ 1 1).2| < 1e-10 ∧
      ¬ |(fun (q : OptionParams) => q.sigma) (implied_volatility
          (fun q => q.sigma) (fun _ => 1) 0.5
          ⟨1, 2, 3, 0, 9, 0, true⟩ 1 1).2 - 0.5| < 1) ∧
    (∀ n, (1:ℕ) = n + 1 →
      (implied_volatility (fun q => q.sigma) (fun _ => 1) 0.5
        ⟨1, 2, 3, 0, 9, 0, true⟩ 1 1).1 = .error .noConvergence →
      (implied_volatility (fun q => q.sigma) (fun _ => 1) 0.5
        ⟨1, 2, 3, 0, 9, 0, true⟩ 1 1).2.sigma =
        (nrStep (fun s => s) (fun _ => (1:ℝ)) 0.5)^[n] 0.5) :=
  implied_volatility_mutation (fun q => q.sigma) (fun _ => 1) 0.5 1
    ⟨1, 2, 3, 0, 9, 0, true⟩ 1

lemma optVal_euro_le_amer (p : OptionParams) (steps : ℕ)
    (hp0 : 0 ≤ bP p steps) (hp1 : bP p steps ≤ 1) :
    ∀ k n, optVal p steps false k n ≤ optVal p steps true k n := by
  intro k
  induction k with
  | zero => intro n; exact le_refl _
  | succ k ih =>
    intro n
    simp only [optVal, if_true, Bool.false_eq_true, if_false]
    refine le_trans ?_ (le_max_left _ _)
    have hdf : 0 ≤ bDf p steps := (Real.exp_pos _).le
    have h1 : bP p steps * optVal p steps false k n ≤
        bP p steps * optVal p steps true k n :=
      mul_le_mul_of_nonneg_left (ih n) hp0
    have h2 : (1 - bP p steps) * optVal p steps false k (n + 1) ≤
        (1 - bP p steps) * optVal p steps true k (n + 1) :=
      mul_le_mul_of_nonneg_left (ih (n + 1)) (by linarith)
    exact mul_le_mul_of_nonneg_left (add_le_add h1 h2) hdf

lemma exNeg_dt : bDt ⟨8, 7, 2, Real.log 4, Real.log 2, 0, false⟩ 2 = 1 := by
  unfold bDt
  norm_num

lemma exNeg_u : bU ⟨8, 7, 2, Real.log 4, Real.log 2, 0, false⟩ 2 = 2 := by
  unfold bU
  rw [exNeg_dt, Real.sqrt_one]
  show Real.exp (Real.log 2 * 1) = 2
  rw [mul_one]
  exact Real.exp_log (by norm_num)

lemma exNeg_d : bD ⟨8, 7, 2, Real.log 4, Real.log 2, 0, false⟩ 2 = 1 / 2 := by
  unfold bD
  rw [exNeg_u]

lemma exNeg_p : bP ⟨8, 7, 2, Real.log 4, Real.log 2, 0, false⟩ 2 = 7 / 3 := by
  unfold bP
  rw [exNeg_dt, exNeg_u, exNeg_d]
  show (Real.exp ((Real.log 4 - 0) * 1) - 1 / 2) / (2 - 1 / 2) = 7 / 3
  rw [show (Real.log 4 - 0) * 1 = Real.log 4 by ring, Real.exp_log (by norm_num)]
  norm_num

lemma exNeg_df : bDf ⟨8, 7, 2, Real.log 4, Real.log 2, 0, false⟩ 2 = 1 / 4 := by
  unfold bDf
  rw [exNeg_dt]
  show Real.exp (-Real.log 4 * 1) = 1 / 4
  rw [show -Real.log 4 * 1 = -Real.log 4 by ring, Real.exp_neg,
    Real.exp_log (by norm_num)]
  norm_num

lemma exNeg_valid : ValidParams ⟨8, 7, 2, Real.log 4, Real.log 2, 0, false⟩ :=
  ⟨by norm_num, by norm_num, by norm_num,
    Real.log_pos (by norm_num), Real.log_nonneg (by norm_num), le_refl 0⟩

lemma exNeg_euro :
    optVal ⟨8, 7, 2, Real.log 4, Real.log 2, 0, false⟩ 2 false 2 0 = 5 / 9 := by
  norm_num [optVal, payoff, intrinsic, stockAt, exNeg_u, exNeg_d, exNeg_p,
    exNeg_df, max_def]

lemma exNeg_amer :
    optVal ⟨8, 7, 2, Real.log 4, Real.log 2, 0, false⟩ 2 true 2 0 = -1 := by
  norm_num [optVal, payoff, intrinsic, stockAt, exNeg_u, exNeg_d, exNeg_p,
    exNeg_df, max_def]

lemma exPos_dt : bDt ⟨4, 5, 2, Real.log 2, Real.log 4, 0, false⟩ 2 = 1 := by
  unfold bDt
  norm_num

lemma exPos_u : bU ⟨4, 5, 2, Real.log 2, Real.log 4, 0, false⟩ 2 = 4 := by
  unfold bU
  rw [exPos_dt, Real.sqrt_one]
  show Real.exp (Real.log 4 * 1) = 4
  rw [mul_one]
  exact Real.exp_log (by norm_num)

lemma exPos_d : bD ⟨4, 5, 2, Real.log 2, Real.log 4, 0, false⟩ 2 = 1 / 4 := by
  unfold bD
  rw [exPos_u]

lemma exPos_p : bP ⟨4, 5, 2, Real.log 2, Real.log 4, 0, false⟩ 2 = 7 / 15 := by
  unfold bP
  rw [exPos_dt, exPos_u, exPos_d]
  show (Real.exp ((Real.log 2 - 0) * 1) - 1 / 4) / (4 - 1 / 4) = 7 / 15
  rw [show (Real.log 2 - 0) * 1 = Real.log 2 by ring, Real.exp_log (by norm_num)]
  norm_num

lemma exPos_df : bDf ⟨4, 5, 2, Real.log 2, Real.log 4, 0, false⟩ 2 = 1 / 2 := by
  unfold bDf
  rw [exPos_dt]
  show Real.exp (-Real.log 2 * 1) = 1 / 2
  rw [show -Real.log 2 * 1 = -Real.log 2 by ring, Real.exp_neg,
    Real.exp_log (by norm_num)]
  norm_num

lemma exPos_valid : ValidParams ⟨4, 5, 2, Real.log 2, Real.log 4, 0, false⟩ :=
  ⟨by norm_num, by norm_num, by norm_num,
    Real.log_pos (by norm_num), Real.log_nonneg (by norm_num), le_refl 0⟩

lemma exPos_euro :
    optVal ⟨4, 5, 2, Real.log 2, Real.log 4, 0, false⟩ 2 false 2 0 = 104 / 225 := by
  norm_num [optVal, payoff, intrinsic, stockAt, exPos_u, exPos_d, exPos_p,
    exPos_df, max_def]

lemma exPos_amer :
    optVal ⟨4, 5, 2, Real.log 2, Real.log 4, 0, false⟩ 2 true 2 0 = 254 / 225 := by
  norm_num [optVal, payoff, intrinsic, stockAt, exPos_u, exPos_d, exPos_p,
    exPos_df, max_def]

/-- C3 (corrected): the claimed inequality "American ≥ European for every
valid OptionParams and every number of steps" fails on the code: the lattice
probability `p = (e^((r−q)dt) − d)/(u − d)` is not clamped to [0,1], and for
S=8, K=7, T=2, r=ln 4, sigma=ln 2 (a valid parameter set, where p = 7/3) the
two-step American put prices at −1 while the European put prices at 5/9. -/
theorem binomial_american_ge_european_counterexample :
    (BinomialTreeModel.mk 2 true).price ⟨8, 7, 2, Real.log 4, Real.log 2, 0, false⟩ =
        .ok (-1) ∧
      (BinomialTreeModel.mk 2 false).price ⟨8, 7, 2, Real.log 4, Real.log 2, 0, false⟩ =
        .ok (5 / 9) ∧
      ¬ ((5 / 9 : ℝ) ≤ -1) := by
  refine ⟨?_, ?_, by norm_num⟩ <;>
    · unfold BinomialTreeModel.price
      rw [validateParams_ok exNeg_valid]
      first
        | exact congrArg Except.ok exNeg_amer
        | exact congrArg Except.ok exNeg_euro

/-- C3 (amended): for every OptionParams and step count on which the
binomial model prices (validation passes), if the risk-neutral probability
`p` lies in [0,1] then the American price is at least the European price;
moreover there are valid parameters with `p` in [0,1] — S=4, K=5, T=2,
r=ln 2, sigma=ln 4, two-step put, where p = 7/15 — on which the American
price 254/225 is strictly above the European price 104/225. -/
theorem binomial_american_ge_european :
    (∀ (p : OptionParams) (steps : ℕ) (a b : ℝ),
      0 ≤ bP p steps → bP p steps ≤ 1 →
      (BinomialTreeModel.mk steps false).price p = .ok a →
      (BinomialTreeModel.mk steps true).price p = .ok b →
      a ≤ b) ∧
    ((BinomialTreeModel.mk 2 false).price ⟨4, 5, 2, Real.log 2, Real.log 4, 0, false⟩ =
        .ok (104 / 225) ∧
      (BinomialTreeModel.mk 2 true).price ⟨4, 5, 2, Real.log 2, Real.log 4, 0, false⟩ =
        .ok (254 / 225) ∧
      (104 / 225 : ℝ) < 254 / 225) := by
  constructor
  · intro p steps a b hp0 hp1 ha hb
    unfold BinomialTreeModel.price at ha hb
    cases hval : validateParams p with
    | error e => rw [hval] at ha; exact Except.noConfusion ha
    | ok u =>
      rw [hval] at ha hb
      cases ha
      cases hb
      exact optVal_euro_le_amer p steps hp0 hp1 steps 0
  · refine ⟨?_, ?_, by norm_num⟩ <;>
      · unfold BinomialTreeModel.price
        rw [validateParams_ok exPos_valid]
        first
          | exact congrArg Except.ok exPos_euro
          | exact congrArg Except.ok exPos_amer

/-- Witness for `binomial_american_ge_european` at the two-step put with
S=4, K=5, T=2, r=ln 2, sigma=ln 4, where p = 7/15 lies in [0,1]. -/
theorem binomial_american_ge_european_witness :
    (0 : ℝ) ≤ bP ⟨4, 5, 2, Real.log 2, Real.log 4, 0, false⟩ 2 ∧
      bP ⟨4, 5, 2, Real.log 2, Real.log 4, 0, false⟩ 2 ≤ 1 ∧
      (104 / 225 : ℝ) ≤ 254 / 225 :=
  ⟨by rw [exPos_p]; norm_num, by rw [exPos_p]; norm_num,
    binomial_american_ge_european.1 ⟨4, 5, 2, Real.log 2, Real.log 4, 0, false⟩ 2
      (104 / 225) (254 / 225)
      (by rw [exPos_p]; norm_num) (by rw [exPos_p]; norm_num)
      binomial_american_ge_european.2.1 binomial_american_ge_european.2.2.1⟩

/-- C5 (code bug): the boundary scan compares the intrinsic value against an
option grid that was never filled in by backward induction (all interior
entries are numpy zeros), so it misses interior exercise nodes.  For the
two-step American put with S=4, K=5, T=2, r=ln 2, sigma=ln 4, the code
returns `[NaN, NaN, 4]`; yet at node n=1 of time step 1 the American option
value (as computed by `price`'s backward induction) equals the intrinsic
value — exercise is optimal at stock price 1 — so the scan described by the
claim would record 1, not NaN, at step 1.  The InvalidOperation branch for a
non-American model does hold. -/
theorem early_exercise_boundary_ignores_induction :
    get_early_exercise_boundary (BinomialTreeModel.mk 2 true)
        ⟨4, 5, 2, Real.log 2, Real.log 4, 0, false⟩ =
      .ok [none, none, some 4] ∧
    optVal ⟨4, 5, 2, Real.log 2, Real.log 4, 0, false⟩ 2 true 1 1 =
      intrinsic ⟨4, 5, 2, Real.log 2, Real.log 4, 0, false⟩
        (stockAt ⟨4, 5, 2, Real.log 2, Real.log 4, 0, false⟩ 2 1 1) ∧
    intrinsic ⟨4, 5, 2, Real.log 2, Real.log 4, 0, false⟩
        (stockAt ⟨4, 5, 2, Real.log 2, Real.log 4, 0, false⟩ 2 1 1) = 4 ∧
    stockAt ⟨4, 5, 2, Real.log 2, Real.log 4, 0, false⟩ 2 1 1 = 1 ∧
    get_early_exercise_boundary (BinomialTreeModel.mk 2 false)
        ⟨4, 5, 2, Real.log 2, Real.log 4, 0, false⟩ =
      .error .invalidOperation := by
  refine ⟨?_, ?_, ?_, ?_, rfl⟩
  · have hr3 : List.range 3 = [0, 1, 2] := rfl
    have hr1 : List.range 1 = [0] := rfl
    have hr2 : List.range 2 = [0, 1] := rfl
    unfold get_early_exercise_boundary
    norm_num [hr1, hr2, hr3, boundaryStep, optionTreeScan, payoff, intrinsic,
      stockAt, exPos_u, exPos_d, List.filterMap, abs_sub_lt_iff, max_def]
  · norm_num [optVal, payoff, intrinsic, stockAt, exPos_u, exPos_d, exPos_p,
      exPos_df, max_def]
  · norm_num [intrinsic, stockAt, exPos_u, exPos_d]
  · norm_num [stockAt, exPos_u, exPos_d]

lemma getD_zipWith (f : ℝ → ℝ → ℝ) :
    ∀ (as bs : List ℝ) (t : ℕ), t < as.length → t < bs.length →
      (List.zipWith f as bs).getD t 0 = f (as.getD t 0) (bs.getD t 0) := by
  intro as
  induction as with
  | nil => intro bs t h1 _; exact absurd h1 (by simp)
  | cons a as ih =>
    intro bs t h1 h2
    cases bs with
    | nil => exact absurd h2 (by simp)
    | cons b bs =>
      cases t with
      | zero => rfl
      | succ t =>
        show (List.zipWith f as bs).getD t 0 = f (as.getD t 0) (bs.getD t 0)
        exact ih bs t (by simpa using h1) (by simpa using h2)

lemma getD_tail (l : List ℝ) (t : ℕ) : l.tail.getD t 0 = l.getD (t + 1) 0 := by
  cases l <;> rfl

/-- C6 (counterexample): `calculate_returns` does not return an array of the
same length as `prices`: on the two-element price list `[1, 2]` it returns a
single-element array (and hence no NaN is prepended). -/
theorem calculate_returns_length_counterexample :
    (calculate_returns [1, 2] true).length = 1 ∧
      ¬ (calculate_returns [1, 2] true).length = ([1, 2] : List ℝ).length := by
  constructor <;> simp [calculate_returns]

/-- C6 (amended): for every price list and flag, `calculate_returns` returns
an array of length `len(prices) − 1` whose entry `t` is
`ln(p[t+1]/p[t])` when `log_returns` is true and `p[t+1]/p[t] − 1`
otherwise; no NaN entry is prepended. -/
theorem calculate_returns_spec (prices : List ℝ) (lg : Bool) :
    (calculate_returns prices lg).length = prices.length - 1 ∧
    ∀ t, t + 1 < prices.length →
      (calculate_returns prices lg).getD t 0 =
        (if lg then Real.log (prices.getD (t + 1) 0 / prices.getD t 0)
         else prices.getD (t + 1) 0 / prices.getD t 0 - 1) := by
  constructor
  · unfold calculate_returns
    cases lg <;> simp [List.length_zipWith, List.length_tail]
  · intro t ht
    have h1 : t < prices.tail.length := by
      rw [List.length_tail]
      omega
    have h2 : t < prices.length := by omega
    unfold calculate_returns
    cases lg
    · simp only [Bool.false_eq_true, if_false]
      rw [getD_zipWith (fun a b => a / b - 1) prices.tail prices t h1 h2,
        getD_tail]
    · simp only [eq_self_iff_true, if_true]
      rw [getD_zipWith (fun a b => Real.log (a / b)) prices.tail prices t h1 h2,
        getD_tail]

/-- Witness for `calculate_returns_spec` on the three-element price list
`[1, 2, 4]` with log returns. -/
theorem calculate_returns_spec_witness :
    (calculate_returns [1, 2, 4] true).length = 2 ∧
      (calculate_returns [1, 2, 4] true).getD 0 0 =
        Real.log (([1, 2, 4] : List ℝ).getD 1 0 / ([1, 2, 4] : List ℝ).getD 0 0) :=
  ⟨(calculate_returns_spec [1, 2, 4] true).1,
    by
      have h := (calculate_returns_spec [1, 2, 4] true).2 0 (by norm_num)
      simpa using h⟩

lemma sqrt_mul_252 (v : ℝ) :
    Real.sqrt v * Real.sqrt 252 = Real.sqrt (v * 252) := by
  rcases le_or_lt 0 v with h | h
  · rw [Real.sqrt_mul h]
  · have hneg : v * 252 ≤ 0 := by
      have h2 := mul_lt_mul_of_pos_right h (show (0:ℝ) < 252 by norm_num)
      simpa using h2.le
    rw [Real.sqrt_eq_zero'.mpr h.le, Real.sqrt_eq_zero'.mpr hneg, zero_mul]

/-- C7 (counterexample): `ewma_volatility` fails with InsufficientData on a
list of three valid (real, hence non-NaN) returns whenever `window`
exceeds the list length — the guard is `len(returns) < window`, not
"fewer than 2 valid returns" as claimed. -/
theorem ewma_volatility_window_counterexample :
    2 ≤ ([0, 0, 0] : List ℝ).length ∧
      ewma_volatility ⟨[0, 0, 0], 5, 94 / 100⟩ = .error .insufficientData := by
  constructor
  · norm_num
  · rfl

/-- C7 (amended): `ewma_volatility` fails with InsufficientData exactly when
`len(returns) < window`; when `window ≤ len(returns)` and the array is
non-empty it returns the series of length `len(returns)` whose entry `t`
is `√(var[t]·252)`, with `var[0] = returns[0]²` and
`var[t] = decay·var[t−1] + (1−decay)·returns[t−1]²`. -/
theorem ewma_volatility_spec (vp : VolatilityParams) :
    (ewma_volatility vp = .error .insufficientData ↔
      vp.returns.length < vp.window) ∧
    (vp.window ≤ vp.returns.length → vp.returns ≠ [] →
      ewma_volatility vp = .ok ((List.range vp.returns.length).map (fun t =>
        Real.sqrt (ewmaVar vp.returns vp.decay t * 252)))) := by
  constructor
  · unfold ewma_volatility
    by_cases h : vp.returns.length < vp.window
    · simp [h]
    · rw [if_neg h]
      by_cases he : vp.returns.isEmpty
      · simp [he, h]
      · simp [he, h]
  · intro hw hne
    unfold ewma_volatility
    rw [if_neg (not_lt.mpr hw),
      if_neg (by simp [List.isEmpty_iff, hne])]
    have hfun : (fun t => Real.sqrt (ewmaVar vp.returns vp.decay t) *
        Real.sqrt 252) = fun t =>
        Real.sqrt (ewmaVar vp.returns vp.decay t * 252) :=
      funext fun t => sqrt_mul_252 _
    rw [hfun]

/-- Witness for `ewma_volatility_spec` on two returns with window 2. -/
theorem ewma_volatility_spec_witness :
    ewma_volatility ⟨[1, 2], 2, 94 / 100⟩ =
      .ok ((List.range ([1, 2] : List ℝ).length).map (fun t =>
        Real.sqrt (ewmaVar [1, 2] (94 / 100) t * 252))) :=
  (ewma_volatility_spec ⟨[1, 2], 2, 94 / 100⟩).2 (by norm_num) (by simp)

lemma bs_eq_surf_price (spot K T r s : ℝ) (c : Bool) :
    bsPriceFormula ⟨spot, K, T, r, s, 0, c⟩ = surfPrice spot K T r c s := by
  unfold bsPriceFormula surfPrice d2 d1 surfD1
  have hd : (Real.log (spot / K) + (r - 0 + 0.5 * s ^ 2) * T) /
      (s * Real.sqrt T) =
      (Real.log (spot / K) + (r + 0.5 * s ^ 2) * T) / (s * Real.sqrt T) := by
    ring_nf
  have hq : Real.exp (-(0 : ℝ) * T) = 1 := by
    rw [show -(0 : ℝ) * T = 0 by ring, Real.exp_zero]
  show (if c then
      spot * Real.exp (-(0 : ℝ) * T) * normCdf ((Real.log (spot / K) +
          (r - 0 + 0.5 * s ^ 2) * T) / (s * Real.sqrt T)) -
        K * Real.exp (-r * T) * normCdf ((Real.log (spot / K) +
          (r - 0 + 0.5 * s ^ 2) * T) / (s * Real.sqrt T) - s * Real.sqrt T)
    else
      K * Real.exp (-r * T) * normCdf (-((Real.log (spot / K) +
          (r - 0 + 0.5 * s ^ 2) * T) / (s * Real.sqrt T) - s * Real.sqrt T)) -
        spot * Real.exp (-(0 : ℝ) * T) * normCdf (-((Real.log (spot / K) +
          (r - 0 + 0.5 * s ^ 2) * T) / (s * Real.sqrt T)))) = _
  rw [hd, hq]
  cases c <;> simp

lemma bs_eq_surf_vega (spot K T r s : ℝ) (c : Bool) :
    bsVega ⟨spot, K, T, r, s, 0, c⟩ = surfVega spot K T r s := by
  unfold bsVega surfVega d1 surfD1
  have hd : (Real.log (spot / K) + (r - 0 + 0.5 * s ^ 2) * T) /
      (s * Real.sqrt T) =
      (Real.log (spot / K) + (r + 0.5 * s ^ 2) * T) / (s * Real.sqrt T) := by
    ring_nf
  show spot * Real.exp (-(0 : ℝ) * T) * Real.sqrt T *
      normPdf ((Real.log (spot / K) + (r - 0 + 0.5 * s ^ 2) * T) /
        (s * Real.sqrt T)) = _
  rw [hd, show -(0 : ℝ) * T = 0 by ring, Real.exp_zero]
  ring

lemma impliedVolLoop_one_degenerate (price vega : OptionParams → ℝ)
    (mp tol sigma : ℝ) (ps : OptionParams)
    (h1 : ¬ |price { ps with sigma := sigma } - mp| < tol)
    (h2 : |vega { ps with sigma := sigma }| < 1e-10) :
    impliedVolLoop price vega mp tol 1 sigma ps =
      (.error .degenerateVega, { ps with sigma := sigma }) := by
  rw [impliedVolLoop_succ_eq, if_neg h1, if_pos h2]

lemma newtonRaphsonIVLoop_succ_eq (spot mp K T r : ℝ) (c : Bool) (tol : ℝ)
    (n : ℕ) (sigma : ℝ) :
    newtonRaphsonIVLoop spot mp K T r c tol (n + 1) sigma =
      if |surfPrice spot K T r c sigma - mp| < tol then .ok sigma
      else
        newtonRaphsonIVLoop spot mp K T r c tol n
          (sigma - (surfPrice spot K T r c sigma - mp) /
            surfVega spot K T r sigma) := rfl

lemma exp100_bs_price_le_one :
    bsPriceFormula ⟨1, Real.exp 100, 1, 0, 0.5, 0, true⟩ ≤ 1 := by
  unfold bsPriceFormula
  have h1 := normCdf_le_one (d1 ⟨1, Real.exp 100, 1, 0, 0.5, 0, true⟩)
  have h2 := normCdf_nonneg (d2 ⟨1, Real.exp 100, 1, 0, 0.5, 0, true⟩)
  have hK := (Real.exp_pos (100 : ℝ)).le
  show (1 : ℝ) * Real.exp (-0 * 1) * normCdf _ -
      Real.exp 100 * Real.exp (-0 * 1) * normCdf _ ≤ 1
  rw [show (-0 : ℝ) * 1 = 0 by ring, Real.exp_zero]
  nlinarith [mul_nonneg hK h2]

lemma exp100_surf_price_le_one :
    surfPrice 1 (Real.exp 100) 1 0 true 0.5 ≤ 1 := by
  unfold surfPrice
  have h1 := normCdf_le_one (surfD1 1 (Real.exp 100) 1 0 0.5)
  have h2 := normCdf_nonneg (surfD1 1 (Real.exp 100) 1 0 0.5 -
    0.5 * Real.sqrt 1)
  have hK := (Real.exp_pos (100 : ℝ)).le
  show (1 : ℝ) * normCdf _ -
      Real.exp 100 * Real.exp (-0 * 1) * normCdf _ ≤ 1
  rw [show (-0 : ℝ) * 1 = 0 by ring, Real.exp_zero]
  nlinarith [mul_nonneg hK h2]

lemma exp100_d1_eq :
    d1 ⟨1, Real.exp 100, 1, 0, 0.5, 0, true⟩ = -199.75 := by
  unfold d1
  show (Real.log (1 / Real.exp 100) + (0 - 0 + 0.5 * 0.5 ^ 2) * 1) /
      (0.5 * Real.sqrt 1) = -199.75
  rw [one_div, Real.log_inv, Real.log_exp, Real.sqrt_one]
  norm_num

lemma exp100_bs_vega_lt :
    |bsVega ⟨1, Real.exp 100, 1, 0, 0.5, 0, true⟩| < 1e-10 := by
  have hv : bsVega ⟨1, Real.exp 100, 1, 0, 0.5, 0, true⟩ =
      normPdf (d1 ⟨1, Real.exp 100, 1, 0, 0.5, 0, true⟩) := by
    unfold bsVega
    show (1 : ℝ) * Real.exp (-0 * 1) * Real.sqrt 1 * normPdf _ = _
    rw [show (-0 : ℝ) * 1 = 0 by ring, Real.exp_zero, Real.sqrt_one]
    ring
  rw [hv, abs_of_nonneg (normPdf_nonneg _), exp100_d1_eq]
  exact normPdf_lt_of_le _ (by norm_num)

lemma not_lt_tol_of_le_one {p : ℝ} (hp : p ≤ 1) : ¬ |p - 2| < 1 := by
  apply not_lt.mpr
  calc (1 : ℝ) ≤ 2 - p := by linarith
    _ = |2 - p| := (abs_of_nonneg (by linarith)).symm
    _ = |p - 2| := abs_sub_comm 2 p

/-- C8 (counterexample): the per-cell surface inversion does not have the
base method's DegenerateVega guard.  At spot 1, strike e^100, maturity 1,
rate 0, market price 2, tolerance 1, max_iter 1, the vega at the seed
sigma = 0.5 is below 1e-10 while the price is at least 1 away from the
market price: the §4.1 recurrence fails with DegenerateVega, but
`_newton_raphson_iv` keeps iterating and fails with NoConvergence — the two
computations do not return the same result. -/
theorem surface_newton_vs_base_counterexample :
    newton_raphson_iv 1 2 (Real.exp 100) 1 0 true 1 1 =
        .error .noConvergence ∧
      (implied_volatility bsPriceFormula bsVega 2
          ⟨1, Real.exp 100, 1, 0, 0.5, 0, true⟩ 1 1).1 =
        .error .degenerateVega ∧
      (Except.error ModelError.noConvergence : Except ModelError ℝ) ≠
        .error .degenerateVega := by
  refine ⟨?_, ?_, by simp⟩
  · show newtonRaphsonIVLoop 1 2 (Real.exp 100) 1 0 true 1 1 0.5 =
      .error .noConvergence
    rw [newtonRaphsonIVLoop_succ_eq,
      if_neg (not_lt_tol_of_le_one exp100_surf_price_le_one)]
    rfl
  · show (impliedVolLoop bsPriceFormula bsVega 2 1 1 0.5
      ⟨1, Real.exp 100, 1, 0, 0.5, 0, true⟩).1 = .error .degenerateVega
    rw [impliedVolLoop_one_degenerate bsPriceFormula bsVega 2 1 0.5
      ⟨1, Real.exp 100, 1, 0, 0.5, 0, true⟩
      (not_lt_tol_of_le_one exp100_bs_price_le_one) exp100_bs_vega_lt]

lemma newtonRaphsonIVLoop_eq_spec (spot mp K T r tol : ℝ) :
    ∀ (n : ℕ) (sigma : ℝ),
      GuardFree (surfPrice spot K T r true) (surfVega spot K T r) mp tol
        n sigma →
      newtonRaphsonIVLoop spot mp K T r true tol n sigma =
        specNewtonIV (surfPrice spot K T r true) (surfVega spot K T r) mp tol
          n sigma := by
  intro n
  induction n with
  | zero => intro sigma _; rfl
  | succ n ih =>
    intro sigma hg
    rw [newtonRaphsonIVLoop_succ_eq]
    by_cases hc : |surfPrice spot K T r true sigma - mp| < tol
    · simp only [specNewtonIV, if_pos hc]
    · obtain ⟨hv, hcl, hrest⟩ := hg hc
      simp only [specNewtonIV, if_neg hc, if_neg hv, if_neg hcl]
      exact ih _ hrest

/-- C8 (amended): `_newton_raphson_iv` runs the same recurrence as §4.1's
`implied_volatility` applied to the q = 0 Black-Scholes price with the
cell's spot, strike, maturity and rate — same seed 0.5, same convergence
test and same update — but it omits the DegenerateVega guard and the
non-positive-sigma clamp; consequently the two agree on every input whose
base run never triggers the guard or the clamp (and can disagree
otherwise). -/
theorem surface_newton_refines_base (spot K T r mp tol : ℝ) (maxIter : ℕ)
    (h : GuardFree (surfPrice spot K T r true) (surfVega spot K T r) mp tol
      maxIter 0.5) :
    newton_raphson_iv spot mp K T r true maxIter tol =
      (implied_volatility bsPriceFormula bsVega mp
        ⟨spot, K, T, r, 0.5, 0, true⟩ tol maxIter).1 := by
  have hbase := impliedVolLoop_fst bsPriceFormula bsVega mp tol maxIter 0.5
    ⟨spot, K, T, r, 0.5, 0, true⟩
  have hf : (fun s => bsPriceFormula
      { (⟨spot, K, T, r, 0.5, 0, true⟩ : OptionParams) with sigma := s }) =
      surfPrice spot K T r true :=
    funext fun s => bs_eq_surf_price spot K T r s true
  have hg : (fun s => bsVega
      { (⟨spot, K, T, r, 0.5, 0, true⟩ : OptionParams) with sigma := s }) =
      surfVega spot K T r :=
    funext fun s => bs_eq_surf_vega spot K T r s true
  show newtonRaphsonIVLoop spot mp K T r true tol maxIter 0.5 = _
  rw [show (implied_volatility bsPriceFormula bsVega mp
      ⟨spot, K, T, r, 0.5, 0, true⟩ tol maxIter).1 =
      (impliedVolLoop bsPriceFormula bsVega mp tol maxIter 0.5
        ⟨spot, K, T, r, 0.5, 0, true⟩).1 from rfl, hbase, hf, hg]
  exact newtonRaphsonIVLoop_eq_spec spot mp K T r tol maxIter 0.5 h

/-- Witness for `surface_newton_refines_base`: with spot = strike =
maturity = 1, rate 0, market price equal to the model price at the seed and
tolerance 1, the run converges immediately, the guard-freeness condition
holds vacuously, and both inversions return 0.5. -/
theorem surface_newton_refines_base_witness :
    GuardFree (surfPrice 1 1 1 0 true) (surfVega 1 1 1 0)
        (surfPrice 1 1 1 0 true 0.5) 1 1 0.5 ∧
      newton_raphson_iv 1 (surfPrice 1 1 1 0 true 0.5) 1 1 0 true 1 1 =
        (implied_volatility bsPriceFormula bsVega
          (surfPrice 1 1 1 0 true 0.5) ⟨1, 1, 1, 0, 0.5, 0, true⟩ 1 1).1 := by
  have hgf : GuardFree (surfPrice 1 1 1 0 true) (surfVega 1 1 1 0)
      (surfPrice 1 1 1 0 true 0.5) 1 1 0.5 := by
    intro hc
    exact absurd (by simp) hc
  exact ⟨hgf, surface_newton_refines_base 1 1 1 0
    (surfPrice 1 1 1 0 true 0.5) 1 1 hgf⟩

lemma getD_map_range {α : Type} (n : ℕ) (f : ℕ → α) (d : α) (i : ℕ)
    (h : i < n) : ((List.range n).map f).getD i d = f i := by
  rw [List.getD_eq_getElem?_getD, List.getElem?_map, List.getElem?_range h]
  rfl

/-- C9: `calculate_surface` is total — it never propagates a per-cell
failure.  Whenever the market-price grid has one row per strike and one
column per maturity, the result has exactly the shape of the market-price
grid; every cell holds the result of that cell's independent Newton-Raphson
inversion, and a cell whose inversion raises any error is recorded as NaN
(`none`) while every other cell is still computed. -/
theorem calculate_surface_total (spot : ℝ)
    (strikes maturities rates : List ℝ) (marketPrices : List (List ℝ))
    (hlen : marketPrices.length = strikes.length)
    (hrow : ∀ row ∈ marketPrices, row.length = maturities.length) :
    (calculate_surface spot strikes maturities rates marketPrices).length =
      marketPrices.length ∧
    (∀ i, i < marketPrices.length →
      ((calculate_surface spot strikes maturities rates marketPrices).getD
        i []).length = (marketPrices.getD i []).length) ∧
    (∀ i j, i < strikes.length → j < maturities.length →
      ((calculate_surface spot strikes maturities rates marketPrices).getD
        i []).getD j none =
        exceptToOption (newton_raphson_iv spot
          ((marketPrices.getD i []).getD j 0) (strikes.getD i 0)
          (maturities.getD j 0) (rates.getD j 0) true 100 (1e-5))) ∧
    (∀ i j e, i < strikes.length → j < maturities.length →
      newton_raphson_iv spot ((marketPrices.getD i []).getD j 0)
          (strikes.getD i 0) (maturities.getD j 0) (rates.getD j 0) true 100
          (1e-5) = .error e →
      ((calculate_surface spot strikes maturities rates marketPrices).getD
        i []).getD j none = none) := by
  have hcell : ∀ i j, i < strikes.length → j < maturities.length →
      ((calculate_surface spot strikes maturities rates marketPrices).getD
        i []).getD j none =
        exceptToOption (newton_raphson_iv spot
          ((marketPrices.getD i []).getD j 0) (strikes.getD i 0)
          (maturities.getD j 0) (rates.getD j 0) true 100 (1e-5)) := by
    intro i j hi hj
    unfold calculate_surface
    rw [getD_map_range strikes.length _ [] i hi,
      getD_map_range maturities.length _ none j hj]
  refine ⟨?_, ?_, hcell, ?_⟩
  · unfold calculate_surface
    rw [List.length_map, List.length_range, hlen]
  · intro i hi
    unfold calculate_surface
    rw [getD_map_range strikes.length _ [] i (hlen ▸ hi), List.length_map,
      List.length_range]
    have hmem : marketPrices.getD i [] ∈ marketPrices := by
      rw [List.getD_eq_getElem?_getD, List.getElem?_eq_getElem hi]
      exact List.getElem_mem hi
    rw [hrow _ hmem]
  · intro i j e hi hj herr
    rw [hcell i j hi hj, herr]
    rfl

/-- Witness for `calculate_surface_total` on a one-cell grid. -/
theorem calculate_surface_total_witness :
    (calculate_surface 1 [1] [1] [0] [[2]]).length = 1 ∧
      ((calculate_surface 1 [1] [1] [0] [[2]]).getD 0 []).getD 0 none =
        exceptToOption (newton_raphson_iv 1 2 1 1 0 true 100 (1e-5)) := by
  have h := calculate_surface_total 1 [1] [1] [0] [[2]] (by simp)
    (by intro row hr; simp at hr; simp [hr])
  refine ⟨h.1.trans (by simp), ?_⟩
  have h3 := h.2.2.1 0 0 (by simp) (by simp)
  simpa using h3

end
